import Mathlib

set_option maxHeartbeats 1600000

/-
Shallow embedding of `wavenet_modules.py` (pytorch-wavenet): the dilation
transform, the `DilatedQueue` ring buffer, the `ConstantPad1d` padding
primitive, and the discretized mixture-of-logistics loss and sampler.

Tensors are embedded as shapes together with total data functions over ℚ
(the float arithmetic of the source is read as exact arithmetic; the
transcendental functions `sigmoid`, `softplus`, `log`, `exp` are passed as
explicit function parameters so that every statement is about the source's
composition of them, not about real analysis).  Fallible torch operations
(shape mismatches, failed assertions, reductions over an empty axis) are
embedded with `Option`.
-/

/-! ## Python slicing on one axis -/

/-- Python index normalization for an axis of length `L`: a negative index
counts from the end of the axis and is clamped below at `0`; a nonnegative
index is clamped above at `L`. -/
def pyIdx (L : ℕ) (a : ℤ) : ℕ :=
  if a < 0 then (a + L).toNat else min a.toNat L

/-- Column indices selected by the Python slice `a:b:step` on an axis of
length `L` (the semantics of `data[:, a:b:step]` for a positive step). -/
def pySliceIdx (L : ℕ) (a b : ℤ) (step : ℕ) : List ℕ :=
  (List.range ((pyIdx L b - pyIdx L a + step - 1) / step)).map
    (fun i => pyIdx L a + i * step)

/-! ## DilatedQueue -/

/-- State of a `DilatedQueue`: a fixed buffer of shape
`(num_channels, max_length)` (stored as a total function over channel and
column), an insertion cursor `in_pos` and a read cursor `out_pos`.
`num_deq` and `dilation` are stored constructor arguments that the methods
themselves never read (the callers pass them to `dequeue` explicitly). -/
structure DilatedQueue where
  max_length : ℕ
  num_deq : ℕ
  num_channels : ℕ
  dilation : ℕ
  in_pos : ℕ
  out_pos : ℕ
  data : ℕ → ℕ → ℚ

/-- `DilatedQueue.__init__` with `data=None`: zero buffer, both cursors 0. -/
def DilatedQueue.init (max_length dilation num_deq num_channels : ℕ) :
    DilatedQueue :=
  ⟨max_length, num_deq, num_channels, dilation, 0, 0, fun _ _ => 0⟩

/-- `enqueue(input)`: write `input` into buffer column `in_pos`, then advance
`in_pos = (in_pos + 1) % max_length`. -/
def DilatedQueue.enqueue (q : DilatedQueue) (input : ℕ → ℚ) : DilatedQueue :=
  { q with
    data := fun ch j => if j = q.in_pos then input ch else q.data ch j,
    in_pos := (q.in_pos + 1) % q.max_length }

/-- The buffer columns read by `dequeue(num_deq, dilation)`:
`start = out_pos - (num_deq - 1) * dilation`; if `start < 0` the result is
`data[:, start::dilation]` concatenated with
`data[:, out_pos % dilation : out_pos + 1 : dilation]`, otherwise it is
`data[:, start : out_pos + 1 : dilation]`. -/
def DilatedQueue.dequeueIdx (q : DilatedQueue) (num_deq dilation : ℕ) :
    List ℕ :=
  let start : ℤ := (q.out_pos : ℤ) - ((num_deq : ℤ) - 1) * dilation
  if start < 0 then
    pySliceIdx q.max_length start q.max_length dilation ++
      pySliceIdx q.max_length (q.out_pos % dilation : ℕ) (q.out_pos + 1) dilation
  else
    pySliceIdx q.max_length start (q.out_pos + 1) dilation

/-- `dequeue(num_deq, dilation)`: return the selected `(num_channels, k)`
window of the buffer and advance `out_pos = (out_pos + 1) % max_length`. -/
def DilatedQueue.dequeue (q : DilatedQueue) (num_deq dilation : ℕ) :
    List (List ℚ) × DilatedQueue :=
  ((List.range q.num_channels).map
      (fun ch => (q.dequeueIdx num_deq dilation).map (q.data ch)),
   { q with out_pos := (q.out_pos + 1) % q.max_length })

/-- `reset()`: zero buffer, both cursors 0. -/
def DilatedQueue.reset (q : DilatedQueue) : DilatedQueue :=
  { q with data := fun _ _ => 0, in_pos := 0, out_pos := 0 }

/-! ## Helper lemmas about Python slicing -/

theorem pyIdx_natCast (L a : ℕ) (h : a ≤ L) : pyIdx L (a : ℤ) = a := by
  unfold pyIdx
  rw [if_neg (by omega)]
  omega

theorem pyIdx_neg (L : ℕ) (a : ℤ) (h : a < 0) : pyIdx L a = (a + L).toNat := by
  unfold pyIdx
  rw [if_pos h]

/-! ## Correctness of `DilatedQueue.dequeue` -/

theorem map_range_split (g : ℕ → ℕ) (k m : ℕ) :
    (List.range (k + m)).map g
      = (List.range k).map g ++ (List.range m).map (fun j => g (k + j)) := by
  rw [List.range_add, List.map_append, List.map_map]
  rfl

/-- Both branches of `dequeue` read exactly the `num_deq` buffer columns at
logical positions `(out_pos - (num_deq - 1 - i) * dilation) mod max_length`,
`i = 0 .. num_deq - 1`, provided the capacity invariant
`max_length >= dilation * (num_deq - 1) + 1` holds. -/
theorem dequeueIdx_spec (q : DilatedQueue) (nd d : ℕ)
    (hd : 1 ≤ d) (hnd : 1 ≤ nd)
    (hout : q.out_pos < q.max_length)
    (hcap : d * (nd - 1) + 1 ≤ q.max_length) :
    q.dequeueIdx nd d = (List.range nd).map
      (fun i : ℕ =>
        (((q.out_pos : ℤ) - ((nd : ℤ) - 1 - (i : ℤ)) * d) % (q.max_length : ℤ)).toNat) := by
  have hL : 0 < q.max_length := by omega
  set L := q.max_length with hLdef
  set o := q.out_pos with hodef
  have hcomm1 : (nd - 1) * d = d * (nd - 1) := Nat.mul_comm _ _
  have hcast_nd : (((nd - 1) * d : ℕ) : ℤ) = ((nd : ℤ) - 1) * d := by
    push_cast [Nat.cast_sub hnd]
    ring
  simp only [DilatedQueue.dequeueIdx, ← hLdef, ← hodef]
  by_cases hs : (o : ℤ) - ((nd : ℤ) - 1) * d < 0
  · -- wrapping branch
    rw [if_pos hs]
    have hαβ := Nat.div_add_mod o d
    have hβ : o % d < d := Nat.mod_lt o hd
    have hwrap : o < (nd - 1) * d := by
      have := hcast_nd
      omega
    have hcomm2 : (o / d) * d = d * (o / d) := Nat.mul_comm _ _
    have hαlt : o / d < nd - 1 := by
      by_contra hle
      push_neg at hle
      have h1 : (nd - 1) * d ≤ (o / d) * d := Nat.mul_le_mul_right d hle
      omega
    have hsplit : d * (nd - 1 - o / d) + d * (o / d) = d * (nd - 1) := by
      rw [← Nat.mul_add]
      congr 1
      omega
    have hlo1 : pyIdx L ((o : ℤ) - ((nd : ℤ) - 1) * d) = L - ((nd - 1) * d - o) := by
      rw [pyIdx_neg _ _ hs]
      omega
    have hhi1 : pyIdx L (L : ℤ) = L := pyIdx_natCast L L le_rfl
    have hlo2 : pyIdx L ((o % d : ℕ) : ℤ) = o % d := pyIdx_natCast L (o % d) (by omega)
    have hhi2 : pyIdx L ((o : ℤ) + 1) = o + 1 := by
      have h1 : ((o : ℤ) + 1) = ((o + 1 : ℕ) : ℤ) := by push_cast; ring
      rw [h1, pyIdx_natCast L (o + 1) (by omega)]
    have hcnt1 : L - (L - ((nd - 1) * d - o)) + d - 1
        = d * (nd - 1 - o / d) + (d - 1 - o % d) := by
      omega
    have hmulσ : d * (o / d + 1) = d * (o / d) + d := by
      rw [Nat.mul_add, Nat.mul_one]
    have hcnt2 : o + 1 - o % d + d - 1 = d * (o / d + 1) := by
      omega
    have hc1 : (L - (L - ((nd - 1) * d - o)) + d - 1) / d = nd - 1 - o / d := by
      rw [hcnt1, Nat.mul_add_div hd,
          Nat.div_eq_of_lt (show d - 1 - o % d < d by omega), Nat.add_zero]
    have hc2 : (o + 1 - o % d + d - 1) / d = o / d + 1 := by
      rw [hcnt2, Nat.mul_div_cancel_left (o / d + 1) hd]
    unfold pySliceIdx
    rw [hlo1, hhi1, hlo2, hhi2, hc1, hc2]
    have hrange : List.range nd = List.range ((nd - 1 - o / d) + (o / d + 1)) := by
      congr 1
      omega
    rw [hrange]
    conv_rhs => rw [map_range_split]
    congr 1
    · -- wrapped head: column L + start + i*d for i < nd - 1 - o/d
      apply List.map_congr_left
      intro i hi
      rw [List.mem_range] at hi
      have hic : ((i * d : ℕ) : ℤ) = (i : ℤ) * d := by push_cast; ring
      have hval : (o : ℤ) - ((nd : ℤ) - 1 - (i : ℤ)) * d
          = ((o : ℤ) - ((nd : ℤ) - 1) * d) + (i : ℤ) * d := by ring
      have hmul_le : i * d + d ≤ (nd - 1 - o / d) * d := by
        have h1 : i + 1 ≤ nd - 1 - o / d := hi
        have h2 := Nat.mul_le_mul_right d h1
        have h3 : (i + 1) * d = i * d + d := Nat.succ_mul i d
        omega
      have hkd : (nd - 1 - o / d) * d + (o / d) * d = (nd - 1) * d := by
        rw [← Nat.add_mul]
        congr 1
        omega
      have hneg : (o : ℤ) - ((nd : ℤ) - 1) * d + (i : ℤ) * d < 0 := by
        have h6 : o + i * d < (nd - 1) * d := by omega
        omega
      have hge : 0 ≤ (o : ℤ) - ((nd : ℤ) - 1) * d + (i : ℤ) * d + L := by
        have hcapL : (nd - 1) * d < L := by omega
        omega
      have hlt : (o : ℤ) - ((nd : ℤ) - 1) * d + (i : ℤ) * d + L < L := by omega
      rw [hval]
      have hsh := Int.add_mul_emod_self_left
        ((o : ℤ) - ((nd : ℤ) - 1) * d + (i : ℤ) * d) (L : ℤ) 1
      rw [mul_one] at hsh
      rw [← hsh, Int.emod_eq_of_lt hge hlt]
      omega
    · -- tail: column o % d + m*d for m < o/d + 1
      apply List.map_congr_left
      intro m hm
      rw [List.mem_range] at hm
      have hval : (o : ℤ) - ((nd : ℤ) - 1 - ((nd - 1 - o / d) + m : ℕ)) * d
          = ((o % d : ℕ) : ℤ) + (m : ℤ) * d := by
        have hoc : ((d * (o / d) + o % d : ℕ) : ℤ) = (o : ℤ) := by exact_mod_cast hαβ
        push_cast [Nat.cast_sub (by omega : o / d ≤ nd - 1), Nat.cast_sub hnd] at *
        linarith [hoc]
      have hmd : m * d ≤ (o / d) * d := Nat.mul_le_mul_right d (by omega)
      have hic : ((m * d : ℕ) : ℤ) = (m : ℤ) * d := by push_cast; ring
      have hge : (0 : ℤ) ≤ ((o % d : ℕ) : ℤ) + (m : ℤ) * d := by positivity
      have hlt : ((o % d : ℕ) : ℤ) + (m : ℤ) * d < L := by
        have h7 : o % d + m * d < L := by omega
        exact_mod_cast h7
      rw [hval, Int.emod_eq_of_lt hge hlt]
      omega
  · -- non-wrapping branch
    rw [if_neg hs]
    push_neg at hs
    have hstnat : (nd - 1) * d ≤ o := by
      have := hcast_nd
      omega
    have hstc : ((o - (nd - 1) * d : ℕ) : ℤ) = (o : ℤ) - ((nd : ℤ) - 1) * d := by
      push_cast [Nat.cast_sub hstnat]
      omega
    have hlo : pyIdx L ((o : ℤ) - ((nd : ℤ) - 1) * d) = o - (nd - 1) * d := by
      rw [← hstc, pyIdx_natCast L (o - (nd - 1) * d) (by omega)]
    have hhi : pyIdx L ((o : ℤ) + 1) = o + 1 := by
      have h1 : ((o : ℤ) + 1) = ((o + 1 : ℕ) : ℤ) := by push_cast; ring
      rw [h1, pyIdx_natCast L (o + 1) (by omega)]
    have hcnt : o + 1 - (o - (nd - 1) * d) + d - 1 = nd * d := by
      have h2 := Nat.sub_one_mul nd d
      have h3 : d ≤ nd * d := Nat.le_mul_of_pos_left d hnd
      omega
    unfold pySliceIdx
    rw [hlo, hhi, hcnt, Nat.mul_div_cancel nd hd]
    apply List.map_congr_left
    intro i hi
    rw [List.mem_range] at hi
    have hval : (o : ℤ) - ((nd : ℤ) - 1 - (i : ℤ)) * d
        = ((o : ℤ) - ((nd : ℤ) - 1) * d) + (i : ℤ) * d := by ring
    have hmd : i * d ≤ (nd - 1) * d := Nat.mul_le_mul_right d (by omega)
    have hic : ((i * d : ℕ) : ℤ) = (i : ℤ) * d := by push_cast; ring
    have hge : (0 : ℤ) ≤ (o : ℤ) - ((nd : ℤ) - 1) * d + (i : ℤ) * d := by omega
    have hlt : (o : ℤ) - ((nd : ℤ) - 1) * d + (i : ℤ) * d < L := by omega
    rw [hval, Int.emod_eq_of_lt hge hlt]
    omega

/-- Example queue used by concrete witnesses: capacity 5, two channels,
`out_pos = 1`, so that `dequeue 3 2` exercises the wrapping branch. -/
def exQ : DilatedQueue :=
  ⟨5, 3, 2, 2, 0, 1, fun ch j => (ch : ℚ) + 10 * j⟩

/-- C1: for a queue whose capacity satisfies
`max_length >= dilation * (num_deq - 1) + 1` (and with a read cursor in
range, as every enqueue/dequeue/reset sequence from construction maintains),
`dequeue(num_deq, dilation)` returns the `(channels, num_deq)` window whose
column `i` is the buffer column at logical index
`(out_pos - (num_deq - 1 - i) * dilation) mod max_length` — chronological
order, in both the non-wrapping and the wrapping branch — and afterwards
`out_pos` has advanced by one modulo `max_length`. -/
theorem dequeue_strided_window (q : DilatedQueue) (num_deq dilation : ℕ)
    (hd : 1 ≤ dilation) (hnd : 1 ≤ num_deq)
    (hout : q.out_pos < q.max_length)
    (hcap : dilation * (num_deq - 1) + 1 ≤ q.max_length) :
    (q.dequeue num_deq dilation).1
      = (List.range q.num_channels).map (fun ch => (List.range num_deq).map
          (fun i : ℕ => q.data ch
            ((((q.out_pos : ℤ) - ((num_deq : ℤ) - 1 - (i : ℤ)) * dilation)
               % (q.max_length : ℤ)).toNat)))
    ∧ (q.dequeue num_deq dilation).2.out_pos = (q.out_pos + 1) % q.max_length := by
  constructor
  · have h1 : (q.dequeue num_deq dilation).1
        = (List.range q.num_channels).map
            (fun ch => (q.dequeueIdx num_deq dilation).map (q.data ch)) := rfl
    rw [h1, dequeueIdx_spec q num_deq dilation hd hnd hout hcap]
    apply List.map_congr_left
    intro ch _
    rw [List.map_map]
    rfl
  · rfl

/-- Witness for C1: a concrete wrapping-branch dequeue on `exQ`. -/
theorem dequeue_strided_window_witness :
    ((1 : ℕ) ≤ 2 ∧ (1 : ℕ) ≤ 3 ∧ exQ.out_pos < exQ.max_length ∧
        2 * (3 - 1) + 1 ≤ exQ.max_length) ∧
      ((exQ.dequeue 3 2).1
          = (List.range exQ.num_channels).map (fun ch => (List.range 3).map
              (fun i : ℕ => exQ.data ch
                ((((exQ.out_pos : ℤ) - (((3 : ℕ) : ℤ) - 1 - (i : ℤ)) * ((2 : ℕ) : ℤ))
                   % (exQ.max_length : ℤ)).toNat)))
        ∧ (exQ.dequeue 3 2).2.out_pos = (exQ.out_pos + 1) % exQ.max_length) :=
  ⟨⟨by decide, by decide, by decide, by decide⟩,
   dequeue_strided_window exQ 3 2 (by decide) (by decide) (by decide) (by decide)⟩

/-- C9: starting from any state whose cursors lie in `[0, max_length)`,
each of `enqueue`, `dequeue` and `reset` leaves both `in_pos` and `out_pos`
in `[0, max_length)` (cursors are naturals in this embedding, so the lower
bound holds by construction and the upper bounds are stated). -/
theorem queue_cursor_invariant (q : DilatedQueue)
    (h1 : q.in_pos < q.max_length) (h2 : q.out_pos < q.max_length) :
    (∀ input : ℕ → ℚ, (q.enqueue input).in_pos < (q.enqueue input).max_length ∧
        (q.enqueue input).out_pos < (q.enqueue input).max_length) ∧
    (∀ num_deq dilation : ℕ,
        (q.dequeue num_deq dilation).2.in_pos < (q.dequeue num_deq dilation).2.max_length ∧
        (q.dequeue num_deq dilation).2.out_pos < (q.dequeue num_deq dilation).2.max_length) ∧
    (q.reset.in_pos < q.reset.max_length ∧ q.reset.out_pos < q.reset.max_length) := by
  have hL : 0 < q.max_length := by omega
  exact ⟨fun _ => ⟨Nat.mod_lt _ hL, h2⟩,
         fun _ _ => ⟨h1, Nat.mod_lt _ hL⟩,
         ⟨hL, hL⟩⟩

/-- Witness for C9 at the concrete queue `exQ`. -/
theorem queue_cursor_invariant_witness :
    (exQ.in_pos < exQ.max_length ∧ exQ.out_pos < exQ.max_length) ∧
      ((∀ input : ℕ → ℚ, (exQ.enqueue input).in_pos < (exQ.enqueue input).max_length ∧
          (exQ.enqueue input).out_pos < (exQ.enqueue input).max_length) ∧
       (∀ num_deq dilation : ℕ,
          (exQ.dequeue num_deq dilation).2.in_pos < (exQ.dequeue num_deq dilation).2.max_length ∧
          (exQ.dequeue num_deq dilation).2.out_pos < (exQ.dequeue num_deq dilation).2.max_length) ∧
       (exQ.reset.in_pos < exQ.reset.max_length ∧ exQ.reset.out_pos < exQ.reset.max_length)) :=
  ⟨⟨by decide, by decide⟩, queue_cursor_invariant exQ (by decide) (by decide)⟩

/-! ## ConstantPad1d -/

/-- Rank-generic tensor: a shape and a total data function over multi-indices.
Entries at out-of-range indices are junk; statements quantify over in-range
indices. -/
structure Tensor where
  shape : List ℕ
  data : List ℕ → ℚ

/-- `t.size(d)` — the size of axis `d`. -/
def Tensor.size (t : Tensor) (d : ℕ) : ℕ := t.shape.getD d 0

/-- A fresh tensor of the given shape with every entry `value`
(`input.new(*size).fill_(value)`). -/
def tensorFilled (shape : List ℕ) (value : ℚ) : Tensor :=
  ⟨shape, fun _ => value⟩

/-- Functional result of `output.narrow(dim, start, len).copy_(input)`: inside
the narrowed window along axis `dim` the entry comes from `input` (shifted by
`start`), elsewhere `output` is unchanged. -/
def copyIntoNarrow (output input : Tensor) (dim start len : ℕ) : Tensor :=
  ⟨output.shape, fun idx =>
    if start ≤ idx.getD dim 0 ∧ idx.getD dim 0 < start + len then
      input.data (idx.set dim (idx.getD dim 0 - start))
    else output.data idx⟩

/-- `ConstantPad1d(target_size, dimension, value, pad_start).forward(input)`:
`num_pad = target_size - input.size(dimension)`; the assert `num_pad >= 0`
is embedded as `none`; otherwise a fresh `value`-filled tensor of the padded
shape is created and `input` is copied into its end (when `pad_start`) or
its beginning (otherwise) through a narrowed view. -/
def ConstantPad1d_forward (target_size dimension : ℕ) (value : ℚ)
    (pad_start : Bool) (input : Tensor) : Option Tensor :=
  let num_pad : ℤ := (target_size : ℤ) - input.size dimension
  if num_pad < 0 then none
  else
    let output := tensorFilled (input.shape.set dimension target_size) value
    if pad_start then
      some (copyIntoNarrow output input dimension num_pad.toNat
        (target_size - num_pad.toNat))
    else
      some (copyIntoNarrow output input dimension 0 (target_size - num_pad.toNat))

/-- `constant_pad_1d(input, target_size, dimension, value, pad_start)`. -/
def constant_pad_1d (input : Tensor) (target_size dimension : ℕ) (value : ℚ)
    (pad_start : Bool) : Option Tensor :=
  ConstantPad1d_forward target_size dimension value pad_start input

theorem List.set_getD_self (l : List ℕ) (d : ℕ) : l.set d (l.getD d 0) = l := by
  induction l generalizing d with
  | nil => rfl
  | cons a t ih =>
    cases d with
    | zero => rfl
    | succ d => simpa using ih d

theorem List.getD_set_self (l : List ℕ) (d v : ℕ) (h : d < l.length) :
    (l.set d v).getD d 0 = v := by
  induction l generalizing d with
  | nil => simp at h
  | cons a t ih =>
    cases d with
    | zero => rfl
    | succ d => simpa using ih d (by simpa using h)

/-- C6: when the target length is at least the current length of the padded
axis, `constant_pad_1d` succeeds and returns a tensor whose size along that
axis is the target length, whose non-padded region (at the end when
`pad_start`, at the start otherwise) carries the original data, and whose
padded region is filled with the fill value. -/
theorem constant_pad_1d_pads (input : Tensor) (target_size dimension : ℕ)
    (value : ℚ) (pad_start : Bool)
    (hdim : dimension < input.shape.length)
    (hle : input.size dimension ≤ target_size) :
    ∃ out, constant_pad_1d input target_size dimension value pad_start = some out ∧
      out.size dimension = target_size ∧
      out.shape = input.shape.set dimension target_size ∧
      (pad_start = true →
        (∀ idx : List ℕ,
            target_size - input.size dimension ≤ idx.getD dimension 0 →
            idx.getD dimension 0 < target_size →
            out.data idx = input.data
              (idx.set dimension
                (idx.getD dimension 0 - (target_size - input.size dimension)))) ∧
        (∀ idx : List ℕ, idx.getD dimension 0 < target_size - input.size dimension →
            out.data idx = value)) ∧
      (pad_start = false →
        (∀ idx : List ℕ, idx.getD dimension 0 < input.size dimension →
            out.data idx = input.data idx) ∧
        (∀ idx : List ℕ, input.size dimension ≤ idx.getD dimension 0 →
            idx.getD dimension 0 < target_size → out.data idx = value)) := by
  have hnp : ¬((target_size : ℤ) - input.size dimension < 0) := by omega
  have htn : ((target_size : ℤ) - input.size dimension).toNat
      = target_size - input.size dimension := by omega
  cases pad_start with
  | true =>
    refine ⟨copyIntoNarrow
        (tensorFilled (input.shape.set dimension target_size) value) input dimension
        (target_size - input.size dimension)
        (target_size - (target_size - input.size dimension)), ?_, ?_, rfl, ?_, ?_⟩
    · simp only [constant_pad_1d, ConstantPad1d_forward, if_neg hnp, if_pos, htn]
    · simp only [copyIntoNarrow, Tensor.size]
      exact List.getD_set_self input.shape dimension target_size hdim
    · intro _
      constructor
      · intro idx h1 h2
        simp only [copyIntoNarrow]
        rw [if_pos ⟨h1, by omega⟩]
      · intro idx h1
        simp only [copyIntoNarrow, tensorFilled]
        rw [if_neg (by omega)]
    · intro h
      cases h
  | false =>
    refine ⟨copyIntoNarrow
        (tensorFilled (input.shape.set dimension target_size) value) input dimension
        0 (target_size - (target_size - input.size dimension)), ?_, ?_, rfl, ?_, ?_⟩
    · simp only [constant_pad_1d, ConstantPad1d_forward, if_neg hnp, htn]
      rfl
    · simp only [copyIntoNarrow, Tensor.size]
      exact List.getD_set_self input.shape dimension target_size hdim
    · intro h
      cases h
    · intro _
      constructor
      · intro idx h1
        simp only [copyIntoNarrow]
        rw [if_pos ⟨Nat.zero_le _, by omega⟩, Nat.sub_zero, List.set_getD_self]
      · intro idx h1 h2
        simp only [copyIntoNarrow, tensorFilled]
        rw [if_neg (by omega)]

/-- Concrete pad input used by witnesses: shape (2, 3). -/
def exT : Tensor := ⟨[2, 3], fun idx => (idx.getD 0 0 : ℚ) + 10 * idx.getD 1 0⟩

/-- Witness for C6: pad the length-3 axis of `exT` to 5 at the start. -/
theorem constant_pad_1d_pads_witness :
    ((1 : ℕ) < exT.shape.length ∧ exT.size 1 ≤ 5) ∧
      (∃ out, constant_pad_1d exT 5 1 0 true = some out ∧
        out.size 1 = 5 ∧
        out.shape = exT.shape.set 1 5 ∧
        (true = true →
          (∀ idx : List ℕ, 5 - exT.size 1 ≤ idx.getD 1 0 → idx.getD 1 0 < 5 →
              out.data idx = exT.data (idx.set 1 (idx.getD 1 0 - (5 - exT.size 1)))) ∧
          (∀ idx : List ℕ, idx.getD 1 0 < 5 - exT.size 1 → out.data idx = 0)) ∧
        (true = false →
          (∀ idx : List ℕ, idx.getD 1 0 < exT.size 1 → out.data idx = exT.data idx) ∧
          (∀ idx : List ℕ, exT.size 1 ≤ idx.getD 1 0 → idx.getD 1 0 < 5 →
              out.data idx = 0))) :=
  ⟨⟨by decide, by decide⟩, constant_pad_1d_pads exT 5 1 0 true (by decide) (by decide)⟩

/-- C7: when the target length is strictly smaller than the current length of
the padded axis, `constant_pad_1d` fails (the `num_pad >= 0` assertion
raises) instead of returning a truncated tensor. -/
theorem constant_pad_1d_shrink_fails (input : Tensor) (target_size dimension : ℕ)
    (value : ℚ) (pad_start : Bool)
    (hlt : target_size < input.size dimension) :
    constant_pad_1d input target_size dimension value pad_start = none := by
  simp only [constant_pad_1d, ConstantPad1d_forward]
  rw [if_pos (by omega)]

/-- Witness for C7: padding the length-3 axis of `exT` down to 1 fails. -/
theorem constant_pad_1d_shrink_fails_witness :
    ((1 : ℕ) < exT.size 1) ∧ constant_pad_1d exT 1 1 0 true = none :=
  ⟨by decide, constant_pad_1d_shrink_fails exT 1 1 0 true (by decide)⟩

/-- C10: with the target length exactly equal to the current length of the
padded axis, `constant_pad_1d` succeeds (`num_pad = 0`) and returns a tensor
equal to the input, for either value of `pad_start`. -/
theorem constant_pad_1d_equal_length_id (input : Tensor) (target_size dimension : ℕ)
    (value : ℚ) (pad_start : Bool)
    (heq : target_size = input.size dimension) :
    ∃ out, constant_pad_1d input target_size dimension value pad_start = some out ∧
      out.shape = input.shape ∧
      ∀ idx : List ℕ, idx.getD dimension 0 < input.size dimension →
        out.data idx = input.data idx := by
  have hnp : ¬((target_size : ℤ) - input.size dimension < 0) := by omega
  have htn : ((target_size : ℤ) - input.size dimension).toNat = 0 := by omega
  have hshape : input.shape.set dimension target_size = input.shape := by
    rw [heq]
    exact List.set_getD_self input.shape dimension
  cases pad_start with
  | true =>
    refine ⟨copyIntoNarrow
        (tensorFilled (input.shape.set dimension target_size) value) input dimension
        0 (target_size - 0), ?_, hshape, ?_⟩
    · simp only [constant_pad_1d, ConstantPad1d_forward, if_neg hnp, htn]
      rfl
    · intro idx h1
      simp only [copyIntoNarrow]
      rw [if_pos ⟨Nat.zero_le _, by omega⟩, Nat.sub_zero, List.set_getD_self]
  | false =>
    refine ⟨copyIntoNarrow
        (tensorFilled (input.shape.set dimension target_size) value) input dimension
        0 (target_size - 0), ?_, hshape, ?_⟩
    · simp only [constant_pad_1d, ConstantPad1d_forward, if_neg hnp, htn]
      rfl
    · intro idx h1
      simp only [copyIntoNarrow]
      rw [if_pos ⟨Nat.zero_le _, by omega⟩, Nat.sub_zero, List.set_getD_self]

/-- Witness for C10: padding the length-3 axis of `exT` to exactly 3. -/
theorem constant_pad_1d_equal_length_id_witness :
    ((3 : ℕ) = exT.size 1) ∧
      (∃ out, constant_pad_1d exT 3 1 0 false = some out ∧
        out.shape = exT.shape ∧
        ∀ idx : List ℕ, idx.getD 1 0 < exT.size 1 → out.data idx = exT.data idx) :=
  ⟨by decide, constant_pad_1d_equal_length_id exT 3 1 0 false (by decide)⟩

/-! ## dilate -/

/-- Rank-3 tensor of shape `(n, c, l)` with a total data function. -/
structure Tensor3 where
  n : ℕ
  c : ℕ
  l : ℕ
  data : ℕ → ℕ → ℕ → ℚ

/-- `x.permute(1, 2, 0)`: dims `(n,c,l) → (c,l,n)`, entry `(i,j,k) = x(k,i,j)`. -/
def Tensor3.permute120 (x : Tensor3) : Tensor3 :=
  ⟨x.c, x.l, x.n, fun i j k => x.data k i j⟩

/-- `x.permute(2, 0, 1)`: dims `(d0,d1,d2) → (d2,d0,d1)`, entry `(i,j,k) = x(j,k,i)`. -/
def Tensor3.permute201 (x : Tensor3) : Tensor3 :=
  ⟨x.l, x.n, x.c, fun i j k => x.data j k i⟩

/-- Row-major flattening of a contiguous rank-3 tensor. -/
def Tensor3.flat (x : Tensor3) : ℕ → ℚ :=
  fun e => x.data (e / (x.c * x.l)) (e / x.l % x.c) (e % x.l)

/-- `x.contiguous().view(a, b, c)`: reinterpret the row-major buffer with a
new shape; torch raises unless the element counts agree. -/
def Tensor3.view (x : Tensor3) (a b c : ℕ) : Option Tensor3 :=
  if a * b * c = x.n * x.c * x.l then
    some ⟨a, b, c, fun i j k => x.flat (i * (b * c) + j * c + k)⟩
  else none

/-- `constant_pad_1d(x, target, dimension=2, value, pad_start)` specialized to
the rank-3 tensors `dilate` pads: the same assert/fill/narrow/copy semantics
as `ConstantPad1d_forward`, on the length axis. -/
def constant_pad_1d_dim2 (x : Tensor3) (target : ℕ) (value : ℚ)
    (pad_start : Bool) : Option Tensor3 :=
  if target < x.l then none
  else some ⟨x.n, x.c, target, fun a b t =>
    if pad_start then
      if target - x.l ≤ t ∧ t < target then x.data a b (t - (target - x.l))
      else value
    else
      if t < x.l then x.data a b t else value⟩

/-- `dilate(x, dilation, init_dilation, pad_start)`.
`dilation_factor = dilation / init_dilation` is Python float division,
embedded as exact rational division (`none` embeds the `ZeroDivisionError`
raised when a divisor is zero); `new_l = int(np.ceil(l / dilation_factor) *
dilation_factor)` and the `math.ceil` recomputations of `l` and `n` are
embedded with rational ceiling and floor; the relayout is
`permute(1,2,0).contiguous().view(c, l, n).permute(2,0,1)`. -/
def dilate (x : Tensor3) (dilation init_dilation : ℕ) (pad_start : Bool) :
    Option Tensor3 :=
  if init_dilation = 0 then none
  else
    let dilation_factor : ℚ := (dilation : ℚ) / (init_dilation : ℚ)
    if dilation_factor = 1 then some x
    else if dilation = 0 then none
    else
      let new_l : ℕ :=
        (⌊((⌈(x.l : ℚ) / dilation_factor⌉ : ℤ) : ℚ) * dilation_factor⌋).toNat
      do
        let xp ← if new_l ≠ x.l then constant_pad_1d_dim2 x new_l 0 pad_start
                 else some x
        let xv ← xp.permute120.view x.c
          ((⌈(new_l : ℚ) * (init_dilation : ℚ) / (dilation : ℚ)⌉).toNat)
          ((⌈(x.n : ℚ) * (dilation : ℚ) / (init_dilation : ℚ)⌉).toNat)
        some xv.permute201

/-! ## Round-trip identity of `dilate` -/

theorem dilate_fwd_index (n l d b q m : ℕ) (_hd : 1 ≤ d) (hdvd : d ∣ l)
    (hq : q < l / d) (hm : m < n * d) :
    (b * (l / d * (n * d)) + q * (n * d) + m) % n = m % n ∧
    (b * (l / d * (n * d)) + q * (n * d) + m) / (l * n) = b ∧
    (b * (l / d * (n * d)) + q * (n * d) + m) / n % l = q * d + m / n := by
  have hn : 0 < n := by
    rcases Nat.eq_zero_or_pos n with h | h
    · subst h; simp at hm
    · exact h
  have hl : 0 < l := by
    have h1 := Nat.div_le_self l d
    omega
  have h1 : l / d * (n * d) = l * n := by
    rw [show l / d * (n * d) = l / d * d * n by ring, Nat.div_mul_cancel hdvd]
  have hqd : (q + 1) * (n * d) ≤ l / d * (n * d) := Nat.mul_le_mul_right _ hq
  have hlt : q * (n * d) + m < l * n := by
    have h2 : (q + 1) * (n * d) = q * (n * d) + n * d := Nat.succ_mul q (n * d)
    omega
  refine ⟨?_, ?_, ?_⟩
  · rw [show b * (l / d * (n * d)) + q * (n * d) + m = n * (b * l + q * d) + m by
      rw [h1]; ring]
    rw [Nat.mul_add_mod]
  · rw [show b * (l / d * (n * d)) + q * (n * d) + m
        = q * (n * d) + m + l * n * b by rw [h1]; ring]
    rw [Nat.add_mul_div_left _ _ (by positivity), Nat.div_eq_of_lt hlt, Nat.zero_add]
  · rw [show b * (l / d * (n * d)) + q * (n * d) + m = m + n * (b * l + q * d) by
      rw [h1]; ring]
    rw [Nat.add_mul_div_left _ _ hn]
    have hm2 : m < d * n := by
      have := Nat.mul_comm n d
      omega
    have hmn : m / n < d := (Nat.div_lt_iff_lt_mul hn).mpr hm2
    have hqd2 : (q + 1) * d ≤ l / d * d := Nat.mul_le_mul_right d hq
    have hqd3 : l / d * d = l := Nat.div_mul_cancel hdvd
    have hsum : m / n + q * d < l := by
      have h9 : (q + 1) * d = q * d + d := Nat.succ_mul q d
      omega
    rw [show m / n + (b * l + q * d) = m / n + q * d + l * b by ring,
        Nat.add_mul_mod_self_left, Nat.mod_eq_of_lt hsum]
    omega

theorem dilate_bwd_index (N n L d b t a : ℕ) (hd : 1 ≤ d) (hN : n * d = N)
    (ha : a < n) (ht : t < L * d) :
    (b * (L * d * n) + t * n + a) % N = t % d * n + a ∧
    (b * (L * d * n) + t * n + a) / (L * N) = b ∧
    (b * (L * d * n) + t * n + a) / N % L = t / d := by
  subst hN
  have hn : 0 < n := by omega
  have hL : 0 < L := by
    rcases Nat.eq_zero_or_pos L with h | h
    · subst h; simp at ht
    · exact h
  have htd := Nat.div_add_mod t d
  have htmod : t % d < d := Nat.mod_lt t hd
  have hR : t % d * n + a < n * d := by
    have h1 : (t % d + 1) * n ≤ d * n := Nat.mul_le_mul_right n (by omega)
    have h2 : (t % d + 1) * n = t % d * n + n := Nat.succ_mul (t % d) n
    have h3 : d * n = n * d := Nat.mul_comm d n
    omega
  have he : b * (L * d * n) + t * n + a
      = n * d * (b * L + t / d) + (t % d * n + a) := by
    conv_lhs => rw [show t = d * (t / d) + t % d by omega]
    ring
  have htL : t / d < L := by
    rw [Nat.div_lt_iff_lt_mul (by omega : 0 < d)]
    exact ht
  refine ⟨?_, ?_, ?_⟩
  · rw [he, Nat.mul_add_mod, Nat.mod_eq_of_lt hR]
  · have he2 : b * (L * d * n) + t * n + a = t * n + a + L * (n * d) * b := by ring
    have hlt2 : t * n + a < L * (n * d) := by
      have h4 : (t + 1) * n ≤ L * d * n := Nat.mul_le_mul_right n (by omega)
      have h5 : (t + 1) * n = t * n + n := Nat.succ_mul t n
      have h6 : L * d * n = L * (n * d) := by ring
      omega
    rw [he2, Nat.add_mul_div_left _ _ (by positivity), Nat.div_eq_of_lt hlt2,
        Nat.zero_add]
  · rw [he, Nat.mul_add_div (by positivity : 0 < n * d), Nat.div_eq_of_lt hR,
        Nat.add_zero]
    rw [show b * L + t / d = t / d + L * b by ring, Nat.add_mul_mod_self_left,
        Nat.mod_eq_of_lt htL]

/-- Forward evaluation of `dilate(x, d, init_dilation=1)` for `d >= 2` and
`d | l`: no padding happens, the result has shape `(n*d, c, l/d)` and entry
`(m, b, q)` is `x(m % n, b, q*d + m/n)`. -/
theorem dilate_fwd (x : Tensor3) (d : ℕ) (hd : 2 ≤ d) (hdvd : d ∣ x.l) :
    ∃ y, dilate x d 1 true = some y ∧ y.n = x.n * d ∧ y.c = x.c ∧ y.l = x.l / d ∧
      ∀ m b q, m < x.n * d → b < x.c → q < x.l / d →
        y.data m b q = x.data (m % x.n) b (q * d + m / x.n) := by
  have hd0 : (d : ℚ) ≠ 0 := by
    exact_mod_cast (by omega : d ≠ 0)
  have hceil1 : ⌈(x.l : ℚ) / ((d : ℚ) / ((1 : ℕ) : ℚ))⌉ = ((x.l / d : ℕ) : ℤ) := by
    rw [Nat.cast_one, div_one, ← Nat.cast_div hdvd hd0, Int.ceil_natCast]
  have hbig : (⌊((⌈(x.l : ℚ) / ((d : ℚ) / ((1 : ℕ) : ℚ))⌉ : ℤ) : ℚ)
      * ((d : ℚ) / ((1 : ℕ) : ℚ))⌋).toNat = x.l := by
    rw [hceil1, Int.cast_natCast, Nat.cast_one, div_one, ← Nat.cast_mul,
        Int.floor_natCast, Int.toNat_natCast, Nat.div_mul_cancel hdvd]
  have hl2 : (⌈(x.l : ℚ) * ((1 : ℕ) : ℚ) / (d : ℚ)⌉).toNat = x.l / d := by
    rw [Nat.cast_one, mul_one, ← Nat.cast_div hdvd hd0, Int.ceil_natCast,
        Int.toNat_natCast]
  have hn2 : (⌈(x.n : ℚ) * (d : ℚ) / ((1 : ℕ) : ℚ)⌉).toNat = x.n * d := by
    rw [Nat.cast_one, div_one, ← Nat.cast_mul, Int.ceil_natCast, Int.toNat_natCast]
  have hcond : x.c * (x.l / d) * (x.n * d)
      = (x.permute120).n * (x.permute120).c * (x.permute120).l := by
    simp only [Tensor3.permute120]
    rw [show x.c * (x.l / d) * (x.n * d) = x.l / d * d * (x.c * x.n) by ring,
        Nat.div_mul_cancel hdvd]
    ring
  simp only [dilate]
  rw [if_neg (show ¬(1 : ℕ) = 0 by omega),
      if_neg (show ¬((d : ℚ) / ((1 : ℕ) : ℚ) = 1) by
        rw [Nat.cast_one, div_one, Nat.cast_eq_one]; omega),
      if_neg (show ¬d = 0 by omega), hbig,
      if_neg (show ¬x.l ≠ x.l by omega), hl2, hn2]
  simp only [Option.bind_eq_bind, Option.some_bind, Tensor3.view, if_pos hcond]
  refine ⟨_, rfl, rfl, rfl, rfl, ?_⟩
  intro m b q hm hb hq
  obtain ⟨i1, i2, i3⟩ := dilate_fwd_index x.n x.l d b q m (by omega) hdvd hq hm
  simp only [Tensor3.permute201, Tensor3.flat, Tensor3.permute120]
  rw [i1, i2, i3]

/-- Backward evaluation of `dilate(y, 1, init_dilation=d)` for `d >= 2` and
`d | n`: no padding happens, the result has shape `(n/d, c, l*d)` and entry
`(a, b, t)` is `y(t % d * (n/d) + a, b, t / d)`. -/
theorem dilate_bwd (y : Tensor3) (d : ℕ) (hd : 2 ≤ d) (hdvd : d ∣ y.n) :
    ∃ z, dilate y 1 d true = some z ∧ z.n = y.n / d ∧ z.c = y.c ∧ z.l = y.l * d ∧
      ∀ a b t, a < y.n / d → b < y.c → t < y.l * d →
        z.data a b t = y.data (t % d * (y.n / d) + a) b (t / d) := by
  have hd0 : (d : ℚ) ≠ 0 := by
    exact_mod_cast (by omega : d ≠ 0)
  have hdiv : (y.l : ℚ) / (((1 : ℕ) : ℚ) / (d : ℚ)) = ((y.l * d : ℕ) : ℚ) := by
    rw [Nat.cast_one, one_div, div_eq_mul_inv, inv_inv]
    push_cast
    ring
  have hceil1 : ⌈(y.l : ℚ) / (((1 : ℕ) : ℚ) / (d : ℚ))⌉ = ((y.l * d : ℕ) : ℤ) := by
    rw [hdiv, Int.ceil_natCast]
  have hmul : ((y.l * d : ℕ) : ℚ) * (((1 : ℕ) : ℚ) / (d : ℚ)) = ((y.l : ℕ) : ℚ) := by
    rw [Nat.cast_one]
    push_cast
    field_simp
  have hbig : (⌊((⌈(y.l : ℚ) / (((1 : ℕ) : ℚ) / (d : ℚ))⌉ : ℤ) : ℚ)
      * (((1 : ℕ) : ℚ) / (d : ℚ))⌋).toNat = y.l := by
    rw [hceil1, Int.cast_natCast, hmul, Int.floor_natCast, Int.toNat_natCast]
  have hl2 : (⌈(y.l : ℚ) * (d : ℚ) / ((1 : ℕ) : ℚ)⌉).toNat = y.l * d := by
    rw [Nat.cast_one, div_one, ← Nat.cast_mul, Int.ceil_natCast, Int.toNat_natCast]
  have hn2 : (⌈(y.n : ℚ) * ((1 : ℕ) : ℚ) / (d : ℚ)⌉).toNat = y.n / d := by
    rw [Nat.cast_one, mul_one, ← Nat.cast_div hdvd hd0, Int.ceil_natCast,
        Int.toNat_natCast]
  have hcond : y.c * (y.l * d) * (y.n / d)
      = (y.permute120).n * (y.permute120).c * (y.permute120).l := by
    simp only [Tensor3.permute120]
    rw [show y.c * (y.l * d) * (y.n / d) = y.n / d * d * (y.c * y.l) by ring,
        Nat.div_mul_cancel hdvd]
    ring
  simp only [dilate]
  rw [if_neg (show ¬d = 0 by omega),
      if_neg (show ¬(((1 : ℕ) : ℚ) / (d : ℚ) = 1) by
        rw [Nat.cast_one, div_eq_one_iff_eq hd0]
        exact_mod_cast (by omega : ¬(1 : ℕ) = d)),
      if_neg (show ¬(1 : ℕ) = 0 by omega), hbig,
      if_neg (show ¬y.l ≠ y.l by omega), hl2, hn2]
  simp only [Option.bind_eq_bind, Option.some_bind, Tensor3.view, if_pos hcond]
  refine ⟨_, rfl, rfl, rfl, rfl, ?_⟩
  intro a b t ha hb ht
  have hNn : y.n / d * d = y.n := Nat.div_mul_cancel hdvd
  obtain ⟨i1, i2, i3⟩ := dilate_bwd_index y.n (y.n / d) y.l d b t a (by omega) hNn
    ha ht
  simp only [Tensor3.permute201, Tensor3.flat, Tensor3.permute120]
  rw [i1, i2, i3]

/-- C2: for a sequence batch `x` of shape `(n, c, l)` with `l` a multiple of
the positive dilation `d`, `dilate(dilate(x, d, init_dilation=1), 1,
init_dilation=d)` succeeds and reconstructs `x` exactly: the forward
transform needs no padding when `d | l`, so the whole round-trip result
(shape and every in-range entry) equals `x`. -/
theorem dilate_round_trip (x : Tensor3) (d : ℕ) (hd : 1 ≤ d) (hdvd : d ∣ x.l) :
    ∃ y z, dilate x d 1 true = some y ∧ dilate y 1 d true = some z ∧
      z.n = x.n ∧ z.c = x.c ∧ z.l = x.l ∧
      ∀ a b t, a < x.n → b < x.c → t < x.l → z.data a b t = x.data a b t := by
  rcases eq_or_lt_of_le hd with h1 | h2
  · -- d = 1: both calls take the identity fast path
    have hid : ∀ w : Tensor3, dilate w 1 1 true = some w := by
      intro w
      simp only [dilate]
      rw [if_neg (show ¬(1 : ℕ) = 0 by omega), if_pos]
      rw [Nat.cast_one, div_one]
    subst h1
    exact ⟨x, x, hid x, hid x, rfl, rfl, rfl, fun a b t _ _ _ => rfl⟩
  · obtain ⟨y, hy, hyn, hyc, hyl, hydata⟩ := dilate_fwd x d (by omega) hdvd
    have hdvd2 : d ∣ y.n := by
      rw [hyn]
      exact dvd_mul_left d x.n
    obtain ⟨z, hz, hzn, hzc, hzl, hzdata⟩ := dilate_bwd y d (by omega) hdvd2
    have hyn' : y.n / d = x.n := by
      rw [hyn]
      exact Nat.mul_div_cancel x.n (by omega)
    refine ⟨y, z, hy, hz, ?_, ?_, ?_, ?_⟩
    · rw [hzn, hyn']
    · rw [hzc, hyc]
    · rw [hzl, hyl, Nat.div_mul_cancel hdvd]
    · intro a b t ha hb ht
      have hxn : 0 < x.n := by omega
      have h3 := hzdata a b t (by rw [hyn']; exact ha) (by rw [hyc]; exact hb)
        (by rw [hyl, Nat.div_mul_cancel hdvd]; exact ht)
      rw [h3, hyn']
      have hm : t % d * x.n + a < x.n * d := by
        have h4 : (t % d + 1) * x.n ≤ d * x.n := Nat.mul_le_mul_right x.n
          (by have := Nat.mod_lt t (show 0 < d by omega); omega)
        have h5 : (t % d + 1) * x.n = t % d * x.n + x.n := Nat.succ_mul (t % d) x.n
        have h6 : d * x.n = x.n * d := Nat.mul_comm d x.n
        omega
      have hq : t / d < x.l / d := by
        rw [Nat.div_lt_iff_lt_mul (show 0 < d by omega), Nat.div_mul_cancel hdvd]
        exact ht
      have h8 := hydata (t % d * x.n + a) b (t / d) hm hb hq
      rw [h8]
      have hi1 : (t % d * x.n + a) % x.n = a := by
        rw [show t % d * x.n + a = x.n * (t % d) + a by ring, Nat.mul_add_mod,
            Nat.mod_eq_of_lt ha]
      have hi2 : (t % d * x.n + a) / x.n = t % d := by
        rw [show t % d * x.n + a = a + x.n * (t % d) by ring,
            Nat.add_mul_div_left _ _ hxn, Nat.div_eq_of_lt ha, Nat.zero_add]
      rw [hi1, hi2]
      congr 1
      have h9 := Nat.div_add_mod t d
      have h10 : t / d * d = d * (t / d) := Nat.mul_comm _ _
      omega

/-- Concrete sequence batch of shape (2, 1, 6) used by the C2 witness. -/
def exX3 : Tensor3 := ⟨2, 1, 6, fun a b t => (100 * a + 10 * b + t : ℚ)⟩

/-- Witness for C2: round trip of `exX3` through dilation 3. -/
theorem dilate_round_trip_witness :
    ((1 : ℕ) ≤ 3 ∧ 3 ∣ exX3.l) ∧
      (∃ y z, dilate exX3 3 1 true = some y ∧ dilate y 1 3 true = some z ∧
        z.n = exX3.n ∧ z.c = exX3.c ∧ z.l = exX3.l ∧
        ∀ a b t, a < exX3.n → b < exX3.c → t < exX3.l →
          z.data a b t = exX3.data a b t) :=
  ⟨⟨by decide, by decide⟩, dilate_round_trip exX3 3 (by decide) (by decide)⟩

/-! ## Mixture of logistics: 2-D tensors with torch broadcasting -/

/-- 2-D tensor `(rows, cols)` with a total data function: the loss and the
sampler operate on `(minibatch, P)` tensors. -/
structure Mat where
  r : ℕ
  c : ℕ
  data : ℕ → ℕ → ℚ

/-- 1-D tensor (the loss's `target` before the in-place unsqueeze). -/
structure Vec where
  n : ℕ
  data : ℕ → ℚ

def Mat.shape (m : Mat) : List ℕ := [m.r, m.c]

def Vec.shape (v : Vec) : List ℕ := [v.n]

/-- torch broadcast of one axis: the sizes must agree or one must be 1. -/
def bcastDim (a b : ℕ) : Option ℕ :=
  if a = b then some a else if a = 1 then some b else if b = 1 then some a
  else none

/-- Reading a broadcast operand: an axis of size 1 is read at index 0. -/
def adjIdx (size i : ℕ) : ℕ := if size = 1 then 0 else i

/-- Elementwise binary tensor op with torch broadcasting (`none` embeds the
shape-mismatch RuntimeError). -/
def ewise (f : ℚ → ℚ → ℚ) (x y : Mat) : Option Mat := do
  let r ← bcastDim x.r y.r
  let c ← bcastDim x.c y.c
  some ⟨r, c, fun i j =>
    f (x.data (adjIdx x.r i) (adjIdx x.c j))
      (y.data (adjIdx y.r i) (adjIdx y.c j))⟩

/-- Elementwise unary op (also used for tensor-scalar arithmetic). -/
def Mat.map (f : ℚ → ℚ) (x : Mat) : Mat := ⟨x.r, x.c, fun i j => f (x.data i j)⟩

/-- Column slice `x[:, lo:hi]` (Python clamps slice bounds at the width). -/
def Mat.sliceCols (x : Mat) (lo hi : ℕ) : Mat :=
  ⟨x.r, min hi x.c - min lo x.c, fun i j => x.data i (min lo x.c + j)⟩

/-- Maximum of `f 0 .. f k`. -/
def rowMax (f : ℕ → ℚ) : ℕ → ℚ
  | 0 => f 0
  | k + 1 => max (rowMax f k) (f (k + 1))

/-- `torch.max(x, dim=-1)` values (raises on an empty reduction axis). -/
def Mat.maxLast (x : Mat) : Option Vec :=
  if x.c = 0 then none else some ⟨x.r, fun i => rowMax (x.data i) (x.c - 1)⟩

/-- `torch.max(x, dim=-1, keepdim=True)` values. -/
def Mat.maxLastKeep (x : Mat) : Option Mat :=
  if x.c = 0 then none else some ⟨x.r, 1, fun i _ => rowMax (x.data i) (x.c - 1)⟩

/-- `torch.sum(x, dim=-1)`. -/
def Mat.sumLast (x : Mat) : Vec :=
  ⟨x.r, fun i => ((List.range x.c).map (x.data i)).sum⟩

/-- `torch.sum(x, dim=-1, keepdim=True)`. -/
def Mat.sumLastKeep (x : Mat) : Mat :=
  ⟨x.r, 1, fun i _ => ((List.range x.c).map (x.data i)).sum⟩

/-- `torch.sum(v)` of a 1-D tensor. -/
def Vec.sum (v : Vec) : ℚ := ((List.range v.n).map v.data).sum

/-- `target.unsqueeze_(1)`: the in-place reshape of the 1-D target into a
`(minibatch, 1)` tensor, which mutates the caller's tensor. -/
def unsqueeze1 (t : Vec) : Mat := ⟨t.n, 1, fun i _ => t.data i⟩

/-- `log_sum_exp(x)`: `m + log(sum(exp(x - m2), dim=-1))` with `m`/`m2` the
per-row maxima without/with `keepdim`. -/
def log_sum_exp (log exp : ℚ → ℚ) (x : Mat) : Option Vec := do
  let m ← x.maxLast
  let m2 ← x.maxLastKeep
  let diff ← ewise (· - ·) x m2
  let s := (diff.map exp).sumLast
  some ⟨m.n, fun i => m.data i + log (s.data i)⟩

/-- `log_prob_from_logits(x)`: `x - m - log(sum(exp(x - m), dim=-1,
keepdim=True))` with `m` the per-row keepdim maximum. -/
def log_prob_from_logits (log exp : ℚ → ℚ) (x : Mat) : Option Mat := do
  let m ← x.maxLastKeep
  let xm ← ewise (· - ·) x m
  ewise (· - ·) xm (((xm.map exp).sumLastKeep).map log)

/-!
`discretized_mix_logistic_loss` is embedded as a composition of segment
functions, one per block of the source body; the segments are wired together
exactly in source order by `dmll_out_3` and `discretized_mix_logistic_loss`.
-/

/-- `means = input[:, nr_mix:2*nr_mix]` with `nr_mix = input.size(-1) // 3`. -/
def dmll_means (input : Mat) : Mat :=
  input.sliceCols (input.c / 3) (2 * (input.c / 3))

/-- `log_scales = torch.clamp(input[:, 2*nr_mix:], min=-7.)`. -/
def dmll_log_scales (input : Mat) : Mat :=
  (input.sliceCols (2 * (input.c / 3)) input.c).map (fun v => max v (-7))

/-- Lines 174-183: `distances_to_target`, `inv_scales`, `pos_in`, `neg_in`,
`cdf_delta = sigmoid(pos_in) - sigmoid(neg_in)` and `mid_in`.  Returns
`(pos_in, neg_in, cdf_delta, mid_in)`. -/
def dmll_ins (sigmoid exp : ℚ → ℚ) (input targetU : Mat) (bin_count : ℕ) :
    Option (Mat × Mat × Mat × Mat) := do
  let distances_to_target ← ewise (· - ·) targetU (dmll_means input)
  let inv_scales := (dmll_log_scales input).map (fun v => exp (-v))
  let pos_in ← ewise (· * ·) inv_scales
    (distances_to_target.map (fun v => v + 1 / (bin_count : ℚ)))
  let neg_in ← ewise (· * ·) inv_scales
    (distances_to_target.map (fun v => v - 1 / (bin_count : ℚ)))
  let pos_cdf := pos_in.map sigmoid
  let neg_cdf := neg_in.map sigmoid
  let cdf_delta ← ewise (· - ·) pos_cdf neg_cdf
  let mid_in ← ewise (· * ·) inv_scales distances_to_target
  some (pos_in, neg_in, cdf_delta, mid_in)

/-- Lines 184-186: the three stable edge formulas
`log_pdf_mid = mid_in - log_scales - 2*softplus(mid_in)`,
`log_one_minus_cdf_neg = -softplus(neg_in)`,
`log_cdf_pos = pos_in - softplus(pos_in)`. -/
def dmll_edge (softplus : ℚ → ℚ) (input pos_in neg_in mid_in : Mat) :
    Option (Mat × Mat × Mat) := do
  let lpm ← ewise (· - ·) mid_in (dmll_log_scales input)
  let log_pdf_mid ← ewise (· - ·) lpm (mid_in.map (fun v => 2 * softplus v))
  let log_one_minus_cdf_neg := neg_in.map (fun v => -softplus v)
  let log_cdf_pos ← ewise (· - ·) pos_in (pos_in.map softplus)
  some (log_pdf_mid, log_one_minus_cdf_neg, log_cdf_pos)

/-- Lines 190-192: `out_1 = condition_1 * log(clamp(cdf_delta, min=1e-12))
+ (1 - condition_1) * (log_pdf_mid - log((bin_count - 1) / 2))` with
`condition_1 = (cdf_delta > 1e-5).float()`. -/
def dmll_out1 (log : ℚ → ℚ) (cdf_delta log_pdf_mid : Mat) (bin_count : ℕ) :
    Option Mat := do
  let condition_1 := cdf_delta.map (fun v => if v > 1 / 100000 then 1 else 0)
  let o11 ← ewise (· * ·) condition_1
    (cdf_delta.map (fun v => log (max v (1 / 1000000000000))))
  let o12 ← ewise (· * ·) (condition_1.map (fun v => 1 - v))
    (log_pdf_mid.map (fun v => v - log (((bin_count : ℚ) - 1) / 2)))
  ewise (· + ·) o11 o12

/-- Lines 193-195: `out_2 = condition_2 * log_one_minus_cdf_neg
+ (1 - condition_2) * out_1` with `condition_2 = (target > 0.999).float()`. -/
def dmll_out2 (targetU log_one_minus_cdf_neg out_1 : Mat) : Option Mat := do
  let condition_2 := targetU.map (fun v => if v > 999 / 1000 then 1 else 0)
  let o21 ← ewise (· * ·) condition_2 log_one_minus_cdf_neg
  let o22 ← ewise (· * ·) (condition_2.map (fun v => 1 - v)) out_1
  ewise (· + ·) o21 o22

/-- Lines 196-198: `out_3 = condition_3 * log_cdf_pos
+ (1 - condition_3) * out_2` with `condition_3 = (target < -0.999).float()`. -/
def dmll_out3_blend (targetU log_cdf_pos out_2 : Mat) : Option Mat := do
  let condition_3 := targetU.map (fun v => if v < -(999 / 1000) then 1 else 0)
  let o31 ← ewise (· * ·) condition_3 log_cdf_pos
  let o32 ← ewise (· * ·) (condition_3.map (fun v => 1 - v)) out_2
  ewise (· + ·) o31 o32

/-- Lines 166-198 of `discretized_mix_logistic_loss`, composed in source
order: the per-mixture blended log-probability tensor `out_3`. -/
def dmll_out_3 (sigmoid softplus log exp : ℚ → ℚ) (input targetU : Mat)
    (bin_count : ℕ) : Option Mat := do
  let (pos_in, neg_in, cdf_delta, mid_in) ←
    dmll_ins sigmoid exp input targetU bin_count
  let (log_pdf_mid, log_one_minus_cdf_neg, log_cdf_pos) ←
    dmll_edge softplus input pos_in neg_in mid_in
  let out_1 ← dmll_out1 log cdf_delta log_pdf_mid bin_count
  let out_2 ← dmll_out2 targetU log_one_minus_cdf_neg out_1
  dmll_out3_blend targetU log_cdf_pos out_2

/-- `discretized_mix_logistic_loss(input, target, bin_count, reduce)`.
The first thing the source does is `target.unsqueeze_(1)`, an in-place
reshape of the caller's tensor; the returned pair is (result, the state of
`target` after the call).  `input` is never written in place (`torch.clamp`
is out-of-place).  `Sum.inl` carries the reduced scalar loss, `Sum.inr` the
per-element loss tensor. -/
def discretized_mix_logistic_loss (sigmoid softplus log exp : ℚ → ℚ)
    (input : Mat) (target : Vec) (bin_count : ℕ) (reduce : Bool) :
    Option (ℚ ⊕ Vec) × Mat :=
  let targetU := unsqueeze1 target
  let weights := input.sliceCols 0 (input.c / 3)
  let res : Option (ℚ ⊕ Vec) := do
    let out_3 ← dmll_out_3 sigmoid softplus log exp input targetU bin_count
    let lw ← log_prob_from_logits log exp weights
    let log_probabilities ← ewise (· + ·) out_3 lw
    let combined ← log_sum_exp log exp log_probabilities
    if reduce then some (Sum.inl (-combined.sum))
    else some (Sum.inr ⟨combined.n, fun i => -(combined.data i)⟩)
  (res, targetU)

/-- First index of a maximal entry among `f 0 .. f k` (`torch.max(dim=1)`
indices; which index a tie returns is not contractual and never matters for
the stated properties). -/
def argmaxRow (f : ℕ → ℚ) : ℕ → ℕ
  | 0 => 0
  | k + 1 => if f (argmaxRow f k) < f (k + 1) then k + 1 else argmaxRow f k

/-- `x.max(dim=1)` indices (raises on an empty axis). -/
def Mat.argmaxLast (x : Mat) : Option (ℕ → ℕ) :=
  if x.c = 0 then none else some (fun i => argmaxRow (x.data i) (x.c - 1))

/-- `torch.gather(m, dim=1, index=sel.unsqueeze(1))` for a per-row index:
a `(rows, 1)` tensor. -/
def gatherCols (m : Mat) (idx : ℕ → ℕ) : Mat :=
  ⟨m.r, 1, fun i _ => m.data i (idx i)⟩

/-- Gumbel-max mixture selection, lines 224-230: `temp = weights -
log(-log(temp))` followed by `argmax(dim=1)` (the uniform draw `temp` is
passed explicitly). -/
def sample_select (log : ℚ → ℚ) (parameters temp : Mat) : Option (ℕ → ℕ) := do
  let temp2 ← ewise (· - ·) (parameters.sliceCols 0 (parameters.c / 3))
    (temp.map (fun v => log (-(log v))))
  temp2.argmaxLast

/-- `sample_from_discretized_mix_logistic(parameters)`: the two uniform draws
(`temp` of the weights' shape, `u` of the gathered means' shape) are passed
explicitly.  Gumbel-max selects a mixture per row, the logistic CDF is
inverted at `u`, and the result is clamped into `[-1, 1]`. -/
def sample_from_discretized_mix_logistic (log exp : ℚ → ℚ) (parameters : Mat)
    (temp u : Mat) : Option Mat := do
  let argmax ← sample_select log parameters temp
  let means2 := gatherCols (dmll_means parameters) argmax
  let log_scales2 := gatherCols (dmll_log_scales parameters) argmax
  let lu ← ewise (· - ·) (u.map log) (u.map (fun v => log (1 - v)))
  let prod ← ewise (· * ·) (log_scales2.map exp) lu
  let x ← ewise (· + ·) means2 prod
  some ((x.map (fun v => max v (-1))).map (fun v => min v 1))

/-! ## Helper lemmas for the 2-D model -/

theorem bcastDim_self (a : ℕ) : bcastDim a a = some a := by
  unfold bcastDim
  rw [if_pos rfl]

theorem bcastDim_one_left (k : ℕ) : bcastDim 1 k = some k := by
  unfold bcastDim
  rcases eq_or_ne 1 k with h | h
  · rw [if_pos h, h]
  · rw [if_neg h, if_pos rfl]

theorem adjIdx_one (i : ℕ) : adjIdx 1 i = 0 := rfl

theorem adjIdx_lt (d i : ℕ) (h : i < d) : adjIdx d i = i := by
  unfold adjIdx
  rcases eq_or_ne d 1 with h1 | h1
  · rw [if_pos h1]
    omega
  · rw [if_neg h1]

theorem Mat.map_r (f : ℚ → ℚ) (x : Mat) : (x.map f).r = x.r := rfl

theorem Mat.map_c (f : ℚ → ℚ) (x : Mat) : (x.map f).c = x.c := rfl

theorem Mat.map_data (f : ℚ → ℚ) (x : Mat) (i j : ℕ) :
    (x.map f).data i j = f (x.data i j) := rfl

theorem unsqueeze1_r (t : Vec) : (unsqueeze1 t).r = t.n := rfl

theorem unsqueeze1_c (t : Vec) : (unsqueeze1 t).c = 1 := rfl

theorem unsqueeze1_data (t : Vec) (i j : ℕ) :
    (unsqueeze1 t).data i j = t.data i := rfl

/-- Evaluation of the `out_2` blending block on operands of matching shape. -/
theorem dmll_out2_eval (targetU lom out1 : Mat)
    (h1 : targetU.c = 1) (h2 : lom.r = targetU.r) (h3 : out1.r = targetU.r)
    (h4 : out1.c = lom.c) :
    ∃ M, dmll_out2 targetU lom out1 = some M ∧ M.r = targetU.r ∧ M.c = lom.c ∧
      ∀ i j, i < targetU.r → j < lom.c →
        M.data i j
          = (if targetU.data i 0 > 999 / 1000 then 1 else 0) * lom.data i j
            + (1 - (if targetU.data i 0 > 999 / 1000 then 1 else 0)) * out1.data i j := by
  simp only [dmll_out2, ewise, Mat.map_r, Mat.map_c, h1, h2, h3, h4,
    bcastDim_self, bcastDim_one_left, Option.bind_eq_bind, Option.some_bind]
  refine ⟨_, rfl, rfl, rfl, ?_⟩
  intro i j hi hj
  simp only [Mat.map_data, adjIdx_one, adjIdx_lt _ _ hi, adjIdx_lt _ _ hj, h1]

/-- Evaluation of the `out_3` blending block on operands of matching shape. -/
theorem dmll_out3_blend_eval (targetU lcp out2 : Mat)
    (h1 : targetU.c = 1) (h2 : lcp.r = targetU.r) (h3 : out2.r = targetU.r)
    (h4 : out2.c = lcp.c) :
    ∃ M, dmll_out3_blend targetU lcp out2 = some M ∧ M.r = targetU.r ∧
      M.c = lcp.c ∧
      ∀ i j, i < targetU.r → j < lcp.c →
        M.data i j
          = (if targetU.data i 0 < -(999 / 1000) then 1 else 0) * lcp.data i j
            + (1 - (if targetU.data i 0 < -(999 / 1000) then 1 else 0))
              * out2.data i j := by
  simp only [dmll_out3_blend, ewise, Mat.map_r, Mat.map_c, h1, h2, h3, h4,
    bcastDim_self, bcastDim_one_left, Option.bind_eq_bind, Option.some_bind]
  refine ⟨_, rfl, rfl, rfl, ?_⟩
  intro i j hi hj
  simp only [Mat.map_data, adjIdx_one, adjIdx_lt _ _ hi, adjIdx_lt _ _ hj, h1]

/-- Evaluation of the `out_1` blending block on operands of matching shape. -/
theorem dmll_out1_eval (log : ℚ → ℚ) (cdf_delta lpm : Mat) (bin_count : ℕ)
    (h2 : lpm.r = cdf_delta.r) (h3 : lpm.c = cdf_delta.c) :
    ∃ M, dmll_out1 log cdf_delta lpm bin_count = some M ∧ M.r = cdf_delta.r ∧
      M.c = cdf_delta.c ∧
      ∀ i j, i < cdf_delta.r → j < cdf_delta.c →
        M.data i j
          = (if cdf_delta.data i j > 1 / 100000 then 1 else 0)
              * log (max (cdf_delta.data i j) (1 / 1000000000000))
            + (1 - (if cdf_delta.data i j > 1 / 100000 then 1 else 0))
              * (lpm.data i j - log (((bin_count : ℚ) - 1) / 2)) := by
  simp only [dmll_out1, ewise, Mat.map_r, Mat.map_c, h2, h3,
    bcastDim_self, Option.bind_eq_bind, Option.some_bind]
  refine ⟨_, rfl, rfl, rfl, ?_⟩
  intro i j hi hj
  simp only [Mat.map_data, adjIdx_lt _ _ hi, adjIdx_lt _ _ hj]

theorem dmll_means_r (input : Mat) : (dmll_means input).r = input.r := rfl

theorem dmll_log_scales_r (input : Mat) : (dmll_log_scales input).r = input.r := rfl

/-- Evaluation of the edge-formula block. -/
theorem dmll_edge_eval (softplus : ℚ → ℚ) (input pos_in neg_in mid_in : Mat)
    (h1 : (dmll_log_scales input).c = mid_in.c)
    (h2 : input.r = mid_in.r) :
    ∃ lpm2 lcp, dmll_edge softplus input pos_in neg_in mid_in
        = some (lpm2, neg_in.map (fun v => -softplus v), lcp) ∧
      lpm2.r = mid_in.r ∧ lpm2.c = mid_in.c ∧
      (∀ i j, i < mid_in.r → j < mid_in.c →
        lpm2.data i j = mid_in.data i j - (dmll_log_scales input).data i j
          - 2 * softplus (mid_in.data i j)) ∧
      lcp.r = pos_in.r ∧ lcp.c = pos_in.c ∧
      (∀ i j, i < pos_in.r → j < pos_in.c →
        lcp.data i j = pos_in.data i j - softplus (pos_in.data i j)) := by
  simp only [dmll_edge, ewise, Mat.map_r, Mat.map_c, dmll_log_scales_r, h1, h2,
    bcastDim_self, Option.bind_eq_bind, Option.some_bind]
  refine ⟨_, _, rfl, rfl, rfl, ?_, rfl, rfl, ?_⟩
  · intro i j hi hj
    simp only [Mat.map_data, adjIdx_lt _ _ hi, adjIdx_lt _ _ hj]
  · intro i j hi hj
    simp only [Mat.map_data, adjIdx_lt _ _ hi, adjIdx_lt _ _ hj]

/-- Evaluation of the input-decomposition block. -/
theorem dmll_ins_eval (sigmoid exp : ℚ → ℚ) (input targetU : Mat)
    (bin_count nr : ℕ)
    (hU1 : targetU.c = 1) (hUr : targetU.r = input.r)
    (hmc : (dmll_means input).c = nr) (hlsc : (dmll_log_scales input).c = nr) :
    ∃ P Ng C M, dmll_ins sigmoid exp input targetU bin_count
        = some (P, Ng, C, M) ∧
      P.r = input.r ∧ P.c = nr ∧ Ng.r = input.r ∧ Ng.c = nr ∧
      C.r = input.r ∧ C.c = nr ∧ M.r = input.r ∧ M.c = nr ∧
      ∀ i j, i < input.r → j < nr →
        P.data i j = exp (-((dmll_log_scales input).data i j))
            * (targetU.data i 0 - (dmll_means input).data i j
               + 1 / (bin_count : ℚ)) ∧
        Ng.data i j = exp (-((dmll_log_scales input).data i j))
            * (targetU.data i 0 - (dmll_means input).data i j
               - 1 / (bin_count : ℚ)) ∧
        C.data i j = sigmoid (P.data i j) - sigmoid (Ng.data i j) ∧
        M.data i j = exp (-((dmll_log_scales input).data i j))
            * (targetU.data i 0 - (dmll_means input).data i j) := by
  simp only [dmll_ins, ewise, Mat.map_r, Mat.map_c, dmll_means_r,
    dmll_log_scales_r, hU1, hUr, hmc, hlsc, bcastDim_self, bcastDim_one_left,
    Option.bind_eq_bind, Option.some_bind]
  refine ⟨_, _, _, _, rfl, rfl, rfl, rfl, rfl, rfl, rfl, rfl, rfl, ?_⟩
  intro i j hi hj
  refine ⟨?_, ?_, ?_, ?_⟩ <;>
    simp only [Mat.map_data, adjIdx_one, adjIdx_lt _ _ hi, adjIdx_lt _ _ hj, hU1]

theorem Mat.sliceCols_r (x : Mat) (lo hi : ℕ) : (x.sliceCols lo hi).r = x.r := rfl

theorem Mat.sliceCols_c (x : Mat) (lo hi : ℕ) :
    (x.sliceCols lo hi).c = min hi x.c - min lo x.c := rfl

theorem Mat.sliceCols_data (x : Mat) (lo hi i j : ℕ) :
    (x.sliceCols lo hi).data i j = x.data i (min lo x.c + j) := rfl

theorem nr_mix_eq (input : Mat) (nr : ℕ) (hP : input.c = 3 * nr) :
    input.c / 3 = nr := by
  rw [hP]
  exact Nat.mul_div_cancel_left nr (by norm_num)

theorem dmll_means_c_eq (input : Mat) (nr : ℕ) (hP : input.c = 3 * nr) :
    (dmll_means input).c = nr := by
  simp only [dmll_means, Mat.sliceCols_c, nr_mix_eq input nr hP, hP]
  omega

theorem dmll_log_scales_c_eq (input : Mat) (nr : ℕ) (hP : input.c = 3 * nr) :
    (dmll_log_scales input).c = nr := by
  simp only [dmll_log_scales, Mat.map_c, Mat.sliceCols_c, nr_mix_eq input nr hP, hP]
  omega

theorem weights_c_eq (input : Mat) (nr : ℕ) (hP : input.c = 3 * nr) :
    (input.sliceCols 0 (input.c / 3)).c = nr := by
  simp only [Mat.sliceCols_c, nr_mix_eq input nr hP, hP]
  omega

theorem dmll_means_data_eq (input : Mat) (nr : ℕ) (hP : input.c = 3 * nr)
    (i j : ℕ) : (dmll_means input).data i j = input.data i (nr + j) := by
  have e1 : 3 * nr / 3 = nr := Nat.mul_div_cancel_left nr (by norm_num)
  simp only [dmll_means, Mat.sliceCols_data, hP, e1]
  rw [min_eq_left (by omega : nr ≤ 3 * nr)]

theorem dmll_log_scales_data_eq (input : Mat) (nr : ℕ) (hP : input.c = 3 * nr)
    (i j : ℕ) :
    (dmll_log_scales input).data i j = max (input.data i (2 * nr + j)) (-7) := by
  have e1 : 3 * nr / 3 = nr := Nat.mul_div_cancel_left nr (by norm_num)
  simp only [dmll_log_scales, Mat.map_data, Mat.sliceCols_data, hP, e1]
  rw [min_eq_left (by omega : 2 * nr ≤ 3 * nr)]

/-! Elementwise readings of the loss's intermediate tensors, used to state
the regime-selection property: each is the value of the corresponding
source tensor at entry `(i, j)`. -/

/-- `log_scales[i, j]` after the clamp. -/
def clampLS (input : Mat) (nr i j : ℕ) : ℚ := max (input.data i (2 * nr + j)) (-7)

/-- `pos_in[i, j] = inv_scales * (distances_to_target + 1/bin_count)`. -/
def posInElem (exp : ℚ → ℚ) (input : Mat) (target : Vec)
    (bin_count nr i j : ℕ) : ℚ :=
  exp (-(clampLS input nr i j))
    * (target.data i - input.data i (nr + j) + 1 / (bin_count : ℚ))

/-- `neg_in[i, j] = inv_scales * (distances_to_target - 1/bin_count)`. -/
def negInElem (exp : ℚ → ℚ) (input : Mat) (target : Vec)
    (bin_count nr i j : ℕ) : ℚ :=
  exp (-(clampLS input nr i j))
    * (target.data i - input.data i (nr + j) - 1 / (bin_count : ℚ))

/-- `mid_in[i, j] = inv_scales * distances_to_target`. -/
def midInElem (exp : ℚ → ℚ) (input : Mat) (target : Vec) (nr i j : ℕ) : ℚ :=
  exp (-(clampLS input nr i j)) * (target.data i - input.data i (nr + j))

/-- `cdf_delta[i, j] = sigmoid(pos_in) - sigmoid(neg_in)`. -/
def cdfDeltaElem (sigmoid exp : ℚ → ℚ) (input : Mat) (target : Vec)
    (bin_count nr i j : ℕ) : ℚ :=
  sigmoid (posInElem exp input target bin_count nr i j)
    - sigmoid (negInElem exp input target bin_count nr i j)

/-- C5: in `discretized_mix_logistic_loss` the three stability regimes are
blended with the documented override precedence: at every entry `(i, j)` of
`out_3`, if `target < -0.999` the per-component log-probability equals
`pos_in - softplus(pos_in)` regardless of the other conditions; otherwise if
`target > 0.999` it equals `-softplus(neg_in)`; otherwise it equals
`log(max(cdf_delta, 1e-12))` when `cdf_delta > 1e-5` and the asymptotic
approximation `mid_in - log_scales - 2*softplus(mid_in)
- log((bin_count-1)/2)` when `cdf_delta <= 1e-5`. -/
theorem dmll_out_3_regimes (sigmoid softplus log exp : ℚ → ℚ) (input : Mat)
    (target : Vec) (bin_count nr : ℕ) (_hnr : 1 ≤ nr) (hP : input.c = 3 * nr)
    (htn : target.n = input.r) :
    ∃ M, dmll_out_3 sigmoid softplus log exp input (unsqueeze1 target) bin_count
        = some M ∧ M.r = input.r ∧ M.c = nr ∧
      ∀ i j, i < input.r → j < nr →
        M.data i j =
          if target.data i < -(999 / 1000) then
            posInElem exp input target bin_count nr i j
              - softplus (posInElem exp input target bin_count nr i j)
          else if target.data i > 999 / 1000 then
            -softplus (negInElem exp input target bin_count nr i j)
          else if cdfDeltaElem sigmoid exp input target bin_count nr i j
              > 1 / 100000 then
            log (max (cdfDeltaElem sigmoid exp input target bin_count nr i j)
              (1 / 1000000000000))
          else
            midInElem exp input target nr i j - clampLS input nr i j
              - 2 * softplus (midInElem exp input target nr i j)
              - log (((bin_count : ℚ) - 1) / 2) := by
  have hmc := dmll_means_c_eq input nr hP
  have hlsc := dmll_log_scales_c_eq input nr hP
  have hUr : (unsqueeze1 target).r = input.r := by rw [unsqueeze1_r, htn]
  obtain ⟨P, Ng, C, M0, hins, hPr, hPc, hNr, hNc, hCr, hCc, hMr, hMc, hdata⟩ :=
    dmll_ins_eval sigmoid exp input (unsqueeze1 target) bin_count nr
      (unsqueeze1_c target) hUr hmc hlsc
  obtain ⟨LPM, LCP, hedge, hLPMr, hLPMc, hLPMd, hLCPr, hLCPc, hLCPd⟩ :=
    dmll_edge_eval softplus input P Ng M0 (by rw [hlsc, hMc]) (by rw [hMr])
  obtain ⟨O1, hout1, hO1r, hO1c, hO1d⟩ :=
    dmll_out1_eval log C LPM bin_count (by rw [hLPMr, hMr, hCr])
      (by rw [hLPMc, hMc, hCc])
  obtain ⟨O2, hout2, hO2r, hO2c, hO2d⟩ :=
    dmll_out2_eval (unsqueeze1 target) (Ng.map (fun v => -softplus v)) O1
      (unsqueeze1_c target) (by rw [Mat.map_r, hNr, hUr])
      (by rw [hO1r, hCr, hUr]) (by rw [hO1c, hCc, Mat.map_c, hNc])
  obtain ⟨O3, hblend, hO3r, hO3c, hO3d⟩ :=
    dmll_out3_blend_eval (unsqueeze1 target) LCP O2 (unsqueeze1_c target)
      (by rw [hLCPr, hPr, hUr]) (by rw [hO2r, hUr])
      (by rw [hO2c, Mat.map_c, hNc, hLCPc, hPc])
  refine ⟨O3, ?_, ?_, ?_, ?_⟩
  · simp only [dmll_out_3, hins, hedge, hout1, hout2, hblend,
      Option.bind_eq_bind, Option.some_bind]
  · rw [hO3r, hUr]
  · rw [hO3c, hLCPc, hPc]
  · intro i j hi hj
    have hiU : i < (unsqueeze1 target).r := by rw [hUr]; exact hi
    have hjL : j < LCP.c := by rw [hLCPc, hPc]; exact hj
    obtain ⟨hPv, hNgv, hCv, hMv⟩ := hdata i j hi hj
    have hPv2 : P.data i j = posInElem exp input target bin_count nr i j := by
      rw [hPv, dmll_log_scales_data_eq input nr hP, dmll_means_data_eq input nr hP,
        unsqueeze1_data]
      simp only [posInElem, clampLS]
    have hNgv2 : Ng.data i j = negInElem exp input target bin_count nr i j := by
      rw [hNgv, dmll_log_scales_data_eq input nr hP, dmll_means_data_eq input nr hP,
        unsqueeze1_data]
      simp only [negInElem, clampLS]
    have hMv2 : M0.data i j = midInElem exp input target nr i j := by
      rw [hMv, dmll_log_scales_data_eq input nr hP, dmll_means_data_eq input nr hP,
        unsqueeze1_data]
      simp only [midInElem, clampLS]
    have hCv2 : C.data i j = cdfDeltaElem sigmoid exp input target bin_count nr i j := by
      rw [hCv, hPv2, hNgv2]
      simp only [cdfDeltaElem]
    rw [hO3d i j hiU hjL, unsqueeze1_data,
      hLCPd i j (by rw [hPr]; exact hi) (by rw [hPc]; exact hj),
      hO2d i j hiU (by rw [Mat.map_c, hNc]; exact hj), unsqueeze1_data,
      hO1d i j (by rw [hCr]; exact hi) (by rw [hCc]; exact hj),
      hLPMd i j (by rw [hMr]; exact hi) (by rw [hMc]; exact hj),
      Mat.map_data, hPv2, hNgv2, hMv2, hCv2,
      dmll_log_scales_data_eq input nr hP]
    have hclamp : max (input.data i (2 * nr + j)) (-7) = clampLS input nr i j := rfl
    rw [hclamp]
    rcases lt_or_le (target.data i) (-(999 / 1000)) with h3 | h3
    · rw [if_pos h3, if_pos h3]
      ring
    · rw [if_neg (not_lt.mpr h3), if_neg (not_lt.mpr h3)]
      rcases lt_or_le (999 / 1000 : ℚ) (target.data i) with h2 | h2
      · rw [if_pos h2, if_pos h2]
        ring
      · rw [if_neg (not_lt.mpr h2), if_neg (not_lt.mpr h2)]
        rcases lt_or_le (1 / 100000 : ℚ)
          (cdfDeltaElem sigmoid exp input target bin_count nr i j) with h1 | h1
        · rw [if_pos h1, if_pos h1]
          ring
        · rw [if_neg (not_lt.mpr h1), if_neg (not_lt.mpr h1)]
          ring

/-- Witness for C5 at a concrete one-mixture input. -/
theorem dmll_out_3_regimes_witness :
    ((1 : ℕ) ≤ 1 ∧ (⟨1, 3, fun _ _ => 0⟩ : Mat).c = 3 * 1 ∧
        (⟨1, fun _ => 0⟩ : Vec).n = (⟨1, 3, fun _ _ => 0⟩ : Mat).r) ∧
      (∃ M, dmll_out_3 id id id id (⟨1, 3, fun _ _ => 0⟩ : Mat)
          (unsqueeze1 ⟨1, fun _ => 0⟩) 256 = some M ∧
        M.r = (⟨1, 3, fun _ _ => 0⟩ : Mat).r ∧ M.c = 1 ∧
        ∀ i j, i < (⟨1, 3, fun _ _ => 0⟩ : Mat).r → j < 1 →
          M.data i j =
            if (⟨1, fun _ => 0⟩ : Vec).data i < -(999 / 1000) then
              posInElem id ⟨1, 3, fun _ _ => 0⟩ ⟨1, fun _ => 0⟩ 256 1 i j
                - id (posInElem id ⟨1, 3, fun _ _ => 0⟩ ⟨1, fun _ => 0⟩ 256 1 i j)
            else if (⟨1, fun _ => 0⟩ : Vec).data i > 999 / 1000 then
              -id (negInElem id ⟨1, 3, fun _ _ => 0⟩ ⟨1, fun _ => 0⟩ 256 1 i j)
            else if cdfDeltaElem id id ⟨1, 3, fun _ _ => 0⟩ ⟨1, fun _ => 0⟩ 256 1 i j
                > 1 / 100000 then
              id (max (cdfDeltaElem id id ⟨1, 3, fun _ _ => 0⟩ ⟨1, fun _ => 0⟩ 256 1 i j)
                (1 / 1000000000000))
            else
              midInElem id ⟨1, 3, fun _ _ => 0⟩ ⟨1, fun _ => 0⟩ 1 i j
                - clampLS ⟨1, 3, fun _ _ => 0⟩ 1 i j
                - 2 * id (midInElem id ⟨1, 3, fun _ _ => 0⟩ ⟨1, fun _ => 0⟩ 1 i j)
                - id ((((256 : ℕ) : ℚ) - 1) / 2)) :=
  ⟨⟨by decide, rfl, rfl⟩,
   dmll_out_3_regimes id id id id ⟨1, 3, fun _ _ => 0⟩ ⟨1, fun _ => 0⟩ 256 1
     (by decide) rfl rfl⟩

/-- C4 counterexample: calling the loss mutates `target` in place — after the
call its shape is `(minibatch, 1)`, not the original `(minibatch,)`. -/
theorem loss_target_shape_mutated :
    ((discretized_mix_logistic_loss id id id id ⟨2, 3, fun _ _ => 0⟩
        ⟨2, fun _ => 0⟩ 256 true).2).shape
      ≠ (⟨2, fun _ => 0⟩ : Vec).shape := by
  decide

/-- C4 (amended): `discretized_mix_logistic_loss` never writes `input`, and
`target`'s values are unchanged, but `target`'s shape is mutated in place by
`unsqueeze_(1)` from `(minibatch,)` to `(minibatch, 1)`. -/
theorem loss_mutates_target_in_place (sigmoid softplus log exp : ℚ → ℚ)
    (input : Mat) (target : Vec) (bin_count : ℕ) (reduce : Bool) :
    (discretized_mix_logistic_loss sigmoid softplus log exp input target
        bin_count reduce).2 = unsqueeze1 target ∧
    ((discretized_mix_logistic_loss sigmoid softplus log exp input target
        bin_count reduce).2).shape = [target.n, 1] ∧
    ∀ i j, ((discretized_mix_logistic_loss sigmoid softplus log exp input target
        bin_count reduce).2).data i j = target.data i :=
  ⟨rfl, rfl, fun _ _ => rfl⟩

/-- C3 (failing input): with a last axis of length 4 (not divisible by 3) the
loss and the sampler both proceed silently — `nr_mix = 4 // 3 = 1`, so the
log-scales slice keeps width 2 and broadcasts against the width-1 means —
instead of raising as the spec requires. -/
theorem mixture_width4_silent :
    ((discretized_mix_logistic_loss id id id id ⟨1, 4, fun _ _ => 0⟩
        ⟨1, fun _ => 0⟩ 256 true).1).isSome = true ∧
    (sample_from_discretized_mix_logistic id id ⟨1, 4, fun _ _ => 0⟩
        ⟨1, 1, fun _ _ => (1 : ℚ) / 2⟩ ⟨1, 1, fun _ _ => (1 : ℚ) / 2⟩).isSome
      = true := by
  constructor
  · rfl
  · rfl

theorem gatherCols_r (m : Mat) (idx : ℕ → ℕ) : (gatherCols m idx).r = m.r := rfl

theorem gatherCols_c (m : Mat) (idx : ℕ → ℕ) : (gatherCols m idx).c = 1 := rfl

/-- The Gumbel-max mixture selection succeeds whenever the weight block is
nonempty and the draw has the weights' shape. -/
theorem sample_select_eval (log : ℚ → ℚ) (parameters temp : Mat) (nr : ℕ)
    (hnr : 1 ≤ nr) (hP : parameters.c = 3 * nr)
    (htr : temp.r = parameters.r) (htc : temp.c = nr) :
    ∃ g, sample_select log parameters temp = some g := by
  simp only [sample_select, ewise, Mat.map_r, Mat.map_c, Mat.sliceCols_r,
    weights_c_eq parameters nr hP, htr, htc, bcastDim_self,
    Option.bind_eq_bind, Option.some_bind, Mat.argmaxLast]
  rw [if_neg]
  · exact ⟨_, rfl⟩
  · show ¬nr = 0
    omega

/-- C8: for a parameter tensor with a well-formed last axis (`3 * nr_mix`
with `nr_mix >= 1`) and uniform draws of the shapes the source allocates
(`temp` of the weights' shape, `u` of the gathered means' shape) with values
in `[1e-5, 1 - 1e-5]`, sampling succeeds with one value per batch row and
every entry of the result lies in `[-1, 1]`. -/
theorem sample_range (log exp : ℚ → ℚ) (parameters temp u : Mat) (nr : ℕ)
    (hnr : 1 ≤ nr) (hP : parameters.c = 3 * nr)
    (htr : temp.r = parameters.r) (htc : temp.c = nr)
    (hur : u.r = parameters.r) (huc : u.c = 1)
    (_htemp : ∀ i j, 1 / 100000 ≤ temp.data i j ∧
        temp.data i j ≤ 1 - 1 / 100000)
    (_hu : ∀ i j, 1 / 100000 ≤ u.data i j ∧ u.data i j ≤ 1 - 1 / 100000) :
    ∃ out, sample_from_discretized_mix_logistic log exp parameters temp u
        = some out ∧
      out.r = parameters.r ∧ out.c = 1 ∧
      ∀ i j, -1 ≤ out.data i j ∧ out.data i j ≤ 1 := by
  obtain ⟨g, hg⟩ := sample_select_eval log parameters temp nr hnr hP htr htc
  simp only [sample_from_discretized_mix_logistic, hg, ewise, Mat.map_r,
    Mat.map_c, gatherCols_r, gatherCols_c, dmll_means_r, dmll_log_scales_r,
    hur, huc, bcastDim_self, Option.bind_eq_bind, Option.some_bind]
  refine ⟨_, rfl, rfl, rfl, ?_⟩
  intro i j
  simp only [Mat.map_data]
  exact ⟨le_min (le_max_right _ _) (by norm_num), min_le_right _ _⟩

/-- Witness for C8 at a concrete one-mixture parameter tensor. -/
theorem sample_range_witness :
    ((1 : ℕ) ≤ 1 ∧ (⟨1, 3, fun _ _ => 0⟩ : Mat).c = 3 * 1 ∧
      (⟨1, 1, fun _ _ => (1 : ℚ) / 2⟩ : Mat).r = (⟨1, 3, fun _ _ => 0⟩ : Mat).r ∧
      (⟨1, 1, fun _ _ => (1 : ℚ) / 2⟩ : Mat).c = 1 ∧
      (⟨1, 1, fun _ _ => (1 : ℚ) / 2⟩ : Mat).r = (⟨1, 3, fun _ _ => 0⟩ : Mat).r ∧
      (⟨1, 1, fun _ _ => (1 : ℚ) / 2⟩ : Mat).c = 1) ∧
    (∃ out, sample_from_discretized_mix_logistic id id ⟨1, 3, fun _ _ => 0⟩
        ⟨1, 1, fun _ _ => (1 : ℚ) / 2⟩ ⟨1, 1, fun _ _ => (1 : ℚ) / 2⟩
        = some out ∧
      out.r = (⟨1, 3, fun _ _ => 0⟩ : Mat).r ∧ out.c = 1 ∧
      ∀ i j, -1 ≤ out.data i j ∧ out.data i j ≤ 1) :=
  ⟨⟨by decide, rfl, rfl, rfl, rfl, rfl⟩,
   sample_range id id ⟨1, 3, fun _ _ => 0⟩ ⟨1, 1, fun _ _ => (1 : ℚ) / 2⟩
     ⟨1, 1, fun _ _ => (1 : ℚ) / 2⟩ 1 (by decide) rfl rfl rfl rfl rfl
     (fun i j => ⟨by norm_num, by norm_num⟩)
     (fun i j => ⟨by norm_num, by norm_num⟩)⟩
